import Mathlib

/-!
Shallow embedding of the RBM activation engine of `include/dll/rbm.inl`
(struct `dll::rbm`): the hidden/visible activation steps, the unit-policy
primitives they call, the inference facade `activation_probabilities`, and
the NaN/Inf stability guard.  Machine floating-point values are modelled by
real numbers; the stochastic draws consumed by the sampling primitives are
modelled by an explicit vector of per-unit draws passed to each call.
Tensors of length n are functions `Fin n → ℝ`; the weight matrix
`w : Fin nv → Fin nh → ℝ` is indexed (visible, hidden) exactly as the
source's `etl::fast_matrix<weight, num_visible, num_hidden>`.
-/

namespace DLL

/-- The compile-time unit-policy tag `dll::unit_type`.  Its defining header
is not part of the excerpt; the spec's data model enumerates exactly these
six values, which are also the only tags the source branches on. -/
inductive unit_type where
  | BINARY
  | GAUSSIAN
  | RELU
  | RELU1
  | RELU6
  | SOFTMAX
deriving DecidableEq, Repr

/-- Modelled from the spec: `etl::sigmoid` (external library, not in the
excerpt) is the logistic sigmoid, `a = sigmoid(z) = 1 / (1 + e^{-z})`,
applied elementwise. -/
noncomputable def sigmoid (x : ℝ) : ℝ := 1 / (1 + Real.exp (-x))

/-- Modelled from the spec: `etl::softmax` (external library, not in the
excerpt) is `softmax(z)_j = e^{z_j} / Σ_k e^{z_k}`.  The spec notes the
implementation subtracts the row maximum before exponentiating for
numerical stability; over the reals that rescaling cancels, so the plain
form is used here. -/
noncomputable def softmax {n : ℕ} (z : Fin n → ℝ) : Fin n → ℝ :=
  fun j => Real.exp (z j) / ∑ k, Real.exp (z k)

/-- Modelled from the spec: `etl::bernoulli` (external library, not in the
excerpt) draws, per unit, an independent coin with success probability
`a j`.  The draw is modelled by an explicit uniform value `r j`: the unit
samples to 1 exactly when its draw falls below its activation. -/
noncomputable def bernoulli {n : ℕ} (r : Fin n → ℝ) (a : Fin n → ℝ) : Fin n → ℝ :=
  fun j => if r j < a j then 1 else 0

/-- Modelled from the spec: `etl::logistic_noise` (external library, not in
the excerpt) perturbs each activation value by a logistic noise draw; the
perturbation is modelled as adding the unit's drawn noise value `r j`. -/
def logistic_noise {n : ℕ} (r : Fin n → ℝ) (a : Fin n → ℝ) : Fin n → ℝ :=
  fun j => a j + r j

/-- Modelled from the spec: `etl::ranged_noise` (external library, not in
the excerpt) perturbs each activation value by noise appropriate to the
range `[0, limit]`; the perturbation is modelled as adding the unit's drawn
noise value `r j` (the `limit` argument is kept to mirror the call sites). -/
def ranged_noise {n : ℕ} (r : Fin n → ℝ) (a : Fin n → ℝ) (_limit : ℝ) : Fin n → ℝ :=
  fun j => a j + r j

/-- `j` attains the maximum of the vector `a`. -/
def isMaxAt {n : ℕ} (a : Fin n → ℝ) (j : Fin n) : Prop := ∀ k, a k ≤ a j

open Classical in
/-- Modelled from the spec: `etl::one_if_max` (external library, not in the
excerpt) produces the one-hot vector with a 1 at the index of the maximum
coordinate of `a` (hard argmax sample); ties resolve to the first such
index. -/
noncomputable def one_if_max {n : ℕ} (a : Fin n → ℝ) : Fin n → ℝ :=
  fun j => if isMaxAt a j ∧ ∀ k, isMaxAt a k → j ≤ k then 1 else 0

/-- The visible→hidden direction of `etl::auto_vmmul`: the row vector `v`
times the (nv × nh) matrix `w`, i.e. `(v·W)_j = Σ_i v_i w_{i j}`. -/
noncomputable def vmmul_vh {nv nh : ℕ} (v : Fin nv → ℝ) (w : Fin nv → Fin nh → ℝ) :
    Fin nh → ℝ :=
  fun j => ∑ i, v i * w i j

/-- The hidden→visible direction of `etl::auto_vmmul`: the (nv × nh) matrix
`w` times the column vector `h`, i.e. `(W·h)_i = Σ_j w_{i j} h_j`. -/
noncomputable def vmmul_hv {nv nh : ℕ} (w : Fin nv → Fin nh → ℝ) (h : Fin nh → ℝ) :
    Fin nv → ℝ :=
  fun i => ∑ j, w i j * h j

/-- The static `activate_hidden` of `rbm.inl` lines 102-152.  `P`/`S` are
the `computeProb`/`computeSample` template flags; `r` the per-unit random
draws consumed by the sampling primitives; `h_a`, `h_s` the prior contents
of the two output buffers (kept when a branch does not assign them); `v_a`
the visible activation; the fourth source parameter (the visible sample) is
anonymous and unused in the source, transcribed here as `_v_s`.  Returns
the final contents of the `(h_a, h_s)` buffers. -/
noncomputable def activate_hidden {nv nh : ℕ} (hidden_unit : unit_type) (P S : Bool)
    (r : Fin nh → ℝ) (h_a h_s : Fin nh → ℝ) (v_a _v_s : Fin nv → ℝ)
    (b : Fin nh → ℝ) (w : Fin nv → Fin nh → ℝ) :
    (Fin nh → ℝ) × (Fin nh → ℝ) :=
  if P then
    let h_a' :=
      if hidden_unit = unit_type.BINARY then
        fun j => sigmoid (b j + vmmul_vh v_a w j)
      else if hidden_unit = unit_type.RELU then
        fun j => max (b j + vmmul_vh v_a w j) 0
      else if hidden_unit = unit_type.RELU6 then
        fun j => min (max (b j + vmmul_vh v_a w j) 0) 6
      else if hidden_unit = unit_type.RELU1 then
        fun j => min (max (b j + vmmul_vh v_a w j) 0) 1
      else if hidden_unit = unit_type.SOFTMAX then
        softmax (fun j => b j + vmmul_vh v_a w j)
      else h_a
    let h_s' :=
      if S then
        if hidden_unit = unit_type.BINARY then bernoulli r h_a'
        else if hidden_unit = unit_type.RELU then logistic_noise r h_a'
        else if hidden_unit = unit_type.RELU6 then ranged_noise r h_a' 6
        else if hidden_unit = unit_type.RELU1 then ranged_noise r h_a' 1
        else if hidden_unit = unit_type.SOFTMAX then one_if_max h_a'
        else h_s
      else h_s
    (h_a', h_s')
  else if S then
    let h_s' :=
      if hidden_unit = unit_type.BINARY then
        bernoulli r (fun j => sigmoid (b j + vmmul_vh v_a w j))
      else if hidden_unit = unit_type.RELU then
        logistic_noise r (fun j => max (b j + vmmul_vh v_a w j) 0)
      else if hidden_unit = unit_type.RELU6 then
        ranged_noise r (fun j => min (max (b j + vmmul_vh v_a w j) 0) 6) 6
      else if hidden_unit = unit_type.RELU1 then
        ranged_noise r (fun j => min (max (b j + vmmul_vh v_a w j) 0) 1) 1
      else if hidden_unit = unit_type.SOFTMAX then
        one_if_max (softmax (fun j => b j + vmmul_vh v_a w j))
      else h_s
    (h_a, h_s')
  else (h_a, h_s)

/-- The static `activate_visible` of `rbm.inl` lines 168-194.  `P`/`S` are
the `computeProb`/`computeSample` template flags; `r` the per-unit random
draws; the first source parameter (the hidden activation) is anonymous and
unused in the source, transcribed here as `_h_a`; `h_s` the hidden sample;
`v_a`, `v_s` the prior contents of the two output buffers (kept when a
branch does not assign them); `c` the visible biases.  Returns the final
contents of the `(v_a, v_s)` buffers. -/
noncomputable def activate_visible {nv nh : ℕ} (visible_unit : unit_type) (P S : Bool)
    (r : Fin nv → ℝ) (_h_a h_s : Fin nh → ℝ) (v_a v_s : Fin nv → ℝ)
    (c : Fin nv → ℝ) (w : Fin nv → Fin nh → ℝ) :
    (Fin nv → ℝ) × (Fin nv → ℝ) :=
  let v_a' :=
    if P then
      if visible_unit = unit_type.BINARY then
        fun i => sigmoid (c i + vmmul_hv w h_s i)
      else if visible_unit = unit_type.GAUSSIAN then
        fun i => c i + vmmul_hv w h_s i
      else if visible_unit = unit_type.RELU then
        fun i => max (c i + vmmul_hv w h_s i) 0
      else v_a
    else v_a
  let v_s' :=
    if S then
      if visible_unit = unit_type.BINARY then
        bernoulli r (fun i => sigmoid (c i + vmmul_hv w h_s i))
      else if visible_unit = unit_type.GAUSSIAN then
        fun i => c i + vmmul_hv w h_s i
      else if visible_unit = unit_type.RELU then
        logistic_noise r (fun i => max (c i + vmmul_hv w h_s i) 0)
      else v_s
    else v_s
  (v_a', v_s')

/-- The member `activation_probabilities(item_data, result)` of `rbm.inl`
lines 196-203, together with the final contents of its static throwaway
buffer `next_s`: the input is copied into `item` and passed as BOTH the
visible activation and the visible sample to `activate_hidden` with the
default template flags `P = true, S = true`, using the model's biases `b`
and weights `w`.  The returned pair is (final `result`, final `next_s`). -/
noncomputable def activation_probabilities {nv nh : ℕ} (hidden_unit : unit_type)
    (r : Fin nh → ℝ) (result next_s : Fin nh → ℝ) (item_data : Fin nv → ℝ)
    (b : Fin nh → ℝ) (w : Fin nv → Fin nh → ℝ) :
    (Fin nh → ℝ) × (Fin nh → ℝ) :=
  activate_hidden hidden_unit true true r result next_s item_data item_data b w

/-- The value-returning overload `activation_probabilities(item_data)` of
`rbm.inl` lines 205-212: allocates a fresh result vector, fills it through
the two-argument overload, and returns it (the static `next_s` buffer is
not part of the return value). -/
noncomputable def activation_probabilities_ret {nv nh : ℕ} (hidden_unit : unit_type)
    (r : Fin nh → ℝ) (result next_s : Fin nh → ℝ) (item_data : Fin nv → ℝ)
    (b : Fin nh → ℝ) (w : Fin nv → Fin nh → ℝ) : Fin nh → ℝ :=
  (activation_probabilities hidden_unit r result next_s item_data b w).1

/-!
Floating-point model for the Stability Guard.  The real-valued model above
cannot express NaN or infinity, so the guard of lines 150-151 and 192-193
is verified over a scalar type that can: a machine double is either a
finite real value or one of the non-finite IEEE values.  What value the
arithmetic produced is abstracted (any tensor may come out of a diverging
computation); what is modelled exactly is the control flow of the two
steps: each branch either assigns its output buffer or leaves the prior
contents, and `nan_check_deep` runs on both buffers after the branches,
aborting (here: `none`) before anything is returned to the caller.
-/

/-- A machine floating-point scalar: a finite real value, NaN, or ±∞. -/
inductive FScalar where
  | val : ℝ → FScalar
  | nan : FScalar
  | posinf : FScalar
  | neginf : FScalar

/-- A floating-point scalar is finite exactly when it is neither NaN nor
infinite. -/
def FScalar.isFinite : FScalar → Bool
  | FScalar.val _ => true
  | _ => false

/-- Modelled from the spec: `nan_check_deep` of `checks.hpp` (not in the
excerpt) scans every element of a tensor and fails fast if any element is
NaN or infinite; it returns `true` exactly when every element is finite. -/
def nan_check_deep {n : ℕ} (t : Fin n → FScalar) : Bool :=
  decide (∀ i, (t i).isFinite = true)

/-- Lines 102-152 of `activate_hidden` over floating-point scalars.
`act` / `smp` stand for whatever tensors the selected unit policy's
activation and sampling arithmetic produced (abstracted: any floating-point
values); `matched` is whether `hidden_unit` equals one of the branch tags
(for the hidden step: false exactly for GAUSSIAN).  The buffer updates
follow the source: with `P` the activation buffer is assigned when a branch
matched, and the sample buffer is assigned when additionally `S`; with
`¬P ∧ S` only the sample buffer is assigned.  The trailing
`nan_check_deep(h_a); nan_check_deep(h_s)` assertions abort (`none`) unless
both final buffers are fully finite. -/
def activate_hidden_fp {nh : ℕ} (P S matched : Bool)
    (act smp : Fin nh → FScalar) (h_a h_s : Fin nh → FScalar) :
    Option ((Fin nh → FScalar) × (Fin nh → FScalar)) :=
  let h_a' := if P && matched then act else h_a
  let h_s' := if S && matched then smp else h_s
  if nan_check_deep h_a' && nan_check_deep h_s' then some (h_a', h_s') else none

/-- Lines 168-194 of `activate_visible` over floating-point scalars, with
the same abstraction: `act` / `smp` are the tensors the visible unit
policy's arithmetic produced, `matched` is whether `visible_unit` equals
one of the branch tags (BINARY, GAUSSIAN, RELU).  The trailing
`nan_check_deep(v_a); nan_check_deep(v_s)` assertions abort (`none`) unless
both final buffers are fully finite. -/
def activate_visible_fp {nv : ℕ} (P S matched : Bool)
    (act smp : Fin nv → FScalar) (v_a v_s : Fin nv → FScalar) :
    Option ((Fin nv → FScalar) × (Fin nv → FScalar)) :=
  let v_a' := if P && matched then act else v_a
  let v_s' := if S && matched then smp else v_s
  if nan_check_deep v_a' && nan_check_deep v_s' then some (v_a', v_s') else none

/-!
Theorems about the embedded engine, one per claim of the specification.
-/

/-- If the terminal guard of an activation step returns `some`, both
tensors it packaged are fully finite. -/
lemma nan_guard_some {n : ℕ} (a s : Fin n → FScalar)
    (out : (Fin n → FScalar) × (Fin n → FScalar)) :
    (if (nan_check_deep a && nan_check_deep s) = true then some (a, s)
      else none) = some out →
    (∀ i, (out.1 i).isFinite = true) ∧ ∀ i, (out.2 i).isFinite = true := by
  intro h
  split at h
  case isTrue hc =>
    rw [Bool.and_eq_true] at hc
    injection h with h
    subst h
    exact ⟨of_decide_eq_true hc.1, of_decide_eq_true hc.2⟩
  case isFalse => exact absurd h (by simp)

/-- C10: the outputs of `activate_hidden` depend only on the visible
activation argument, never on the visible sample argument: two invocations
identical except for the visible sample produce identical hidden
activation and hidden sample. -/
theorem activate_hidden_ignores_visible_sample :
    ∀ (nv nh : ℕ) (hu : unit_type) (P S : Bool)
      (r h_a h_s : Fin nh → ℝ) (v_a v_s v_s' : Fin nv → ℝ)
      (b : Fin nh → ℝ) (w : Fin nv → Fin nh → ℝ),
      activate_hidden hu P S r h_a h_s v_a v_s b w =
        activate_hidden hu P S r h_a h_s v_a v_s' b w := by
  intro nv nh hu P S r h_a h_s v_a v_s v_s' b w
  rfl

/-- C2: `activate_visible` reconstructs from the hidden sample only: the
hidden activation argument never influences the output (first conjunct),
while changing one unit of the hidden sample can change the reconstruction
(second conjunct, a concrete 1×1 GAUSSIAN-visible instance where flipping
the single hidden sample unit from 0 to 1 moves the reconstruction). -/
theorem activate_visible_uses_sample_not_activation :
    (∀ (nv nh : ℕ) (vu : unit_type) (P S : Bool)
       (r : Fin nv → ℝ) (h_a h_a' h_s : Fin nh → ℝ) (v_a v_s c : Fin nv → ℝ)
       (w : Fin nv → Fin nh → ℝ),
       activate_visible vu P S r h_a h_s v_a v_s c w =
         activate_visible vu P S r h_a' h_s v_a v_s c w) ∧
    @activate_visible 1 1 unit_type.GAUSSIAN true true (fun _ => 0)
        (fun _ => 0) (fun _ => 0) (fun _ => 0) (fun _ => 0) (fun _ => 0)
        (fun _ _ => 1) ≠
      @activate_visible 1 1 unit_type.GAUSSIAN true true (fun _ => 0)
        (fun _ => 0) (fun _ => 1) (fun _ => 0) (fun _ => 0) (fun _ => 0)
        (fun _ _ => 1) := by
  constructor
  · intro nv nh vu P S r h_a h_a' h_s v_a v_s c w
    rfl
  · intro h
    have h0 := congrFun (congrArg Prod.fst h) 0
    simp [activate_visible, vmmul_hv] at h0

/-- C4: for every hidden unit policy, the sample-only path of
`activate_hidden` (`computeProb = false, computeSample = true`) produces
the same hidden sample as the combined path
(`computeProb = true, computeSample = true`) on the same inputs, prior
buffers and random draws. -/
theorem activate_hidden_sample_only_eq_combined_sample :
    ∀ (nv nh : ℕ) (hu : unit_type)
      (r h_a h_s : Fin nh → ℝ) (v_a v_s : Fin nv → ℝ)
      (b : Fin nh → ℝ) (w : Fin nv → Fin nh → ℝ),
      (activate_hidden hu false true r h_a h_s v_a v_s b w).2 =
        (activate_hidden hu true true r h_a h_s v_a v_s b w).2 := by
  intro nv nh hu r h_a h_s v_a v_s b w
  cases hu <;> rfl

/-- C8: for a GAUSSIAN visible unit policy, `activate_visible` sets the
visible activation exactly equal to the raw pre-activation
`c + W·h_s` (identity, no squashing), and the visible sampled state equals
that same value with no added noise, so `v_s = v_a`. -/
theorem activate_visible_gaussian_identity :
    ∀ (nv nh : ℕ) (r : Fin nv → ℝ) (h_a h_s : Fin nh → ℝ)
      (v_a v_s c : Fin nv → ℝ) (w : Fin nv → Fin nh → ℝ),
      (activate_visible unit_type.GAUSSIAN true true r h_a h_s v_a v_s c w).1 =
          (fun i => c i + vmmul_hv w h_s i) ∧
        (activate_visible unit_type.GAUSSIAN true true r h_a h_s v_a v_s c w).2 =
          (activate_visible unit_type.GAUSSIAN true true r h_a h_s v_a v_s c w).1 := by
  intro nv nh r h_a h_s v_a v_s c w
  exact ⟨rfl, rfl⟩

/-- C9: if the configured unit type of a layer matches none of the
branches of its activation step (for the hidden layer, any tag outside
BINARY, RELU, RELU6, RELU1, SOFTMAX; for the visible layer, any tag
outside BINARY, GAUSSIAN, RELU), the step writes neither the activation
nor the sample buffer: both keep their prior contents, and the step
returns without error. -/
theorem unmatched_unit_type_leaves_buffers :
    (∀ (nv nh : ℕ) (hu : unit_type),
       hu ∉ [unit_type.BINARY, unit_type.RELU, unit_type.RELU6,
             unit_type.RELU1, unit_type.SOFTMAX] →
       ∀ (P S : Bool) (r h_a h_s : Fin nh → ℝ) (v_a v_s : Fin nv → ℝ)
         (b : Fin nh → ℝ) (w : Fin nv → Fin nh → ℝ),
         activate_hidden hu P S r h_a h_s v_a v_s b w = (h_a, h_s)) ∧
    (∀ (nv nh : ℕ) (vu : unit_type),
       vu ∉ [unit_type.BINARY, unit_type.GAUSSIAN, unit_type.RELU] →
       ∀ (P S : Bool) (r : Fin nv → ℝ) (h_a h_s : Fin nh → ℝ)
         (v_a v_s c : Fin nv → ℝ) (w : Fin nv → Fin nh → ℝ),
         activate_visible vu P S r h_a h_s v_a v_s c w = (v_a, v_s)) := by
  constructor
  · intro nv nh hu hmem P S r h_a h_s v_a v_s b w
    cases hu <;> simp at hmem
    cases P <;> cases S <;> simp [activate_hidden]
  · intro nv nh vu hmem P S r h_a h_s v_a v_s c w
    cases vu <;> simp at hmem
    all_goals cases P <;> cases S <;> simp [activate_visible]

/-- Witness for C9: at the GAUSSIAN hidden tag and the SOFTMAX visible tag
(each outside its step's branch set), the 1×1 steps leave the prior buffer
contents in place. -/
theorem unmatched_unit_type_leaves_buffers_witness :
    @activate_hidden 1 1 unit_type.GAUSSIAN true true (fun _ => 0)
        (fun _ => 3) (fun _ => 4) (fun _ => 0) (fun _ => 0) (fun _ => 0)
        (fun _ _ => 0) = ((fun _ => 3), (fun _ => 4)) ∧
      @activate_visible 1 1 unit_type.SOFTMAX true true (fun _ => 0)
        (fun _ => 0) (fun _ => 0) (fun _ => 3) (fun _ => 4) (fun _ => 0)
        (fun _ _ => 0) = ((fun _ => 3), (fun _ => 4)) :=
  ⟨unmatched_unit_type_leaves_buffers.1 1 1 unit_type.GAUSSIAN (by decide)
      true true (fun _ => 0) (fun _ => 3) (fun _ => 4) (fun _ => 0)
      (fun _ => 0) (fun _ => 0) (fun _ _ => 0),
    unmatched_unit_type_leaves_buffers.2 1 1 unit_type.SOFTMAX (by decide)
      true true (fun _ => 0) (fun _ => 0) (fun _ => 0) (fun _ => 3)
      (fun _ => 4) (fun _ => 0) (fun _ _ => 0)⟩

/-- C1 counterexample: `activation_probabilities` does compute a hidden
sampled state.  On a 1-visible/1-hidden BINARY-hidden model with zero
weights and biases, input 0, draw 0 and throwaway-buffer prior contents 5,
the call leaves the sample buffer holding 1 (the Bernoulli draw at
activation 1/2), not its prior contents — refuting that it invokes the
hidden step with `computeSample = false` and computes no sample. -/
theorem activation_probabilities_writes_sample_buffer :
    (@activation_probabilities 1 1 unit_type.BINARY (fun _ => 0) (fun _ => 0)
        (fun _ => 5) (fun _ => 0) (fun _ => 0) (fun _ _ => 0)).2 0 = 1 ∧
      (@activation_probabilities 1 1 unit_type.BINARY (fun _ => 0) (fun _ => 0)
        (fun _ => 5) (fun _ => 0) (fun _ => 0) (fun _ _ => 0)).2 0 ≠ 5 := by
  have hval : (@activation_probabilities 1 1 unit_type.BINARY (fun _ => 0)
      (fun _ => 0) (fun _ => 5) (fun _ => 0) (fun _ => 0) (fun _ _ => 0)).2 0
      = 1 := by
    simp [activation_probabilities, activate_hidden, bernoulli, sigmoid,
      vmmul_vh, Real.exp_zero]
  exact ⟨hval, by rw [hval]; norm_num⟩

/-- C1 (amended): `activation_probabilities` invokes the hidden activation
step with the default flags `computeProb = true, computeSample = true`, so
a hidden sample is computed into the throwaway static buffer; the returned
hidden-activation vector nonetheless equals the one a
`computeProb = true, computeSample = false` invocation would produce, with
the input sample passed directly as the visible-layer activation. -/
theorem activation_probabilities_eq_prob_only_activation :
    ∀ (nv nh : ℕ) (hu : unit_type) (r result next_s : Fin nh → ℝ)
      (item : Fin nv → ℝ) (b : Fin nh → ℝ) (w : Fin nv → Fin nh → ℝ),
      activation_probabilities_ret hu r result next_s item b w =
        (activate_hidden hu true false r result next_s item item b w).1 := by
  intro nv nh hu r result next_s item b w
  rfl

/-- C7: the RELU hidden activation computed by `activate_hidden` equals
`max(z, 0)` and is elementwise ≥ 0; the RELU1 activation equals
`min(max(z, 0), 1)` (i.e. `clamp(max(z,0), 0, 1)`) and lies within [0,1];
the RELU6 activation equals `min(max(z, 0), 6)` and lies within [0,6]. -/
theorem activate_hidden_relu_bounds :
    (∀ (nv nh : ℕ) (S : Bool) (r h_a h_s : Fin nh → ℝ) (v_a v_s : Fin nv → ℝ)
       (b : Fin nh → ℝ) (w : Fin nv → Fin nh → ℝ) (j : Fin nh),
       (activate_hidden unit_type.RELU true S r h_a h_s v_a v_s b w).1 j =
           max (b j + vmmul_vh v_a w j) 0 ∧
         0 ≤ (activate_hidden unit_type.RELU true S r h_a h_s v_a v_s b w).1 j) ∧
    (∀ (nv nh : ℕ) (S : Bool) (r h_a h_s : Fin nh → ℝ) (v_a v_s : Fin nv → ℝ)
       (b : Fin nh → ℝ) (w : Fin nv → Fin nh → ℝ) (j : Fin nh),
       (activate_hidden unit_type.RELU1 true S r h_a h_s v_a v_s b w).1 j =
           min (max (b j + vmmul_vh v_a w j) 0) 1 ∧
         0 ≤ (activate_hidden unit_type.RELU1 true S r h_a h_s v_a v_s b w).1 j ∧
         (activate_hidden unit_type.RELU1 true S r h_a h_s v_a v_s b w).1 j ≤ 1) ∧
    (∀ (nv nh : ℕ) (S : Bool) (r h_a h_s : Fin nh → ℝ) (v_a v_s : Fin nv → ℝ)
       (b : Fin nh → ℝ) (w : Fin nv → Fin nh → ℝ) (j : Fin nh),
       (activate_hidden unit_type.RELU6 true S r h_a h_s v_a v_s b w).1 j =
           min (max (b j + vmmul_vh v_a w j) 0) 6 ∧
         0 ≤ (activate_hidden unit_type.RELU6 true S r h_a h_s v_a v_s b w).1 j ∧
         (activate_hidden unit_type.RELU6 true S r h_a h_s v_a v_s b w).1 j ≤ 6) := by
  refine ⟨fun nv nh S r h_a h_s v_a v_s b w j => ⟨rfl, ?_⟩,
    fun nv nh S r h_a h_s v_a v_s b w j => ⟨rfl, ?_, ?_⟩,
    fun nv nh S r h_a h_s v_a v_s b w j => ⟨rfl, ?_, ?_⟩⟩
  · exact le_max_right _ _
  · exact le_min (le_max_right _ _) zero_le_one
  · exact min_le_right _ _
  · exact le_min (le_max_right _ _) (by norm_num)
  · exact min_le_right _ _

/-- C5: whenever the (floating-point modelled) hidden or visible
activation step returns normally rather than aborting on its trailing
`nan_check_deep` assertions, both returned tensors contain no NaN and no
infinite element. -/
theorem activate_steps_return_finite_or_abort :
    (∀ (nh : ℕ) (P S m : Bool) (act smp h_a h_s : Fin nh → FScalar)
       (out : (Fin nh → FScalar) × (Fin nh → FScalar)),
       activate_hidden_fp P S m act smp h_a h_s = some out →
       (∀ i, (out.1 i).isFinite = true) ∧ ∀ i, (out.2 i).isFinite = true) ∧
    (∀ (nv : ℕ) (P S m : Bool) (act smp v_a v_s : Fin nv → FScalar)
       (out : (Fin nv → FScalar) × (Fin nv → FScalar)),
       activate_visible_fp P S m act smp v_a v_s = some out →
       (∀ i, (out.1 i).isFinite = true) ∧ ∀ i, (out.2 i).isFinite = true) := by
  constructor
  · intro nh P S m act smp h_a h_s out h
    simp only [activate_hidden_fp] at h
    exact nan_guard_some _ _ _ h
  · intro nv P S m act smp v_a v_s out h
    simp only [activate_visible_fp] at h
    exact nan_guard_some _ _ _ h

/-- Witness for C5: a 1-unit hidden step whose computed tensors are the
finite value 0 passes the guard and returns, and the returned tensors are
indeed fully finite. -/
theorem activate_steps_return_finite_or_abort_witness :
    @activate_hidden_fp 1 true true true (fun _ => FScalar.val 0)
        (fun _ => FScalar.val 0) (fun _ => FScalar.val 0)
        (fun _ => FScalar.val 0) =
      some ((fun _ => FScalar.val 0), (fun _ => FScalar.val 0)) ∧
    ((∀ i : Fin 1,
        ((fun _ => FScalar.val 0 : Fin 1 → FScalar) i).isFinite = true) ∧
      ∀ i : Fin 1,
        ((fun _ => FScalar.val 0 : Fin 1 → FScalar) i).isFinite = true) :=
  ⟨rfl,
    activate_steps_return_finite_or_abort.1 1 true true true
      (fun _ => FScalar.val 0) (fun _ => FScalar.val 0)
      (fun _ => FScalar.val 0) (fun _ => FScalar.val 0)
      ((fun _ => FScalar.val 0), (fun _ => FScalar.val 0)) rfl⟩

/-- The softmax of any vector over a nonempty index set sums to 1. -/
lemma softmax_sum_one {n : ℕ} (hn : 0 < n) (z : Fin n → ℝ) :
    ∑ j, softmax z j = 1 := by
  have : Nonempty (Fin n) := ⟨⟨0, hn⟩⟩
  unfold softmax
  rw [← Finset.sum_div]
  exact div_self (ne_of_gt (Finset.sum_pos (fun i _ => Real.exp_pos (z i))
    Finset.univ_nonempty))

/-- Every vector over a nonempty index set has a first index attaining its
maximum. -/
lemma exists_first_max {n : ℕ} (hn : 0 < n) (a : Fin n → ℝ) :
    ∃ j, isMaxAt a j ∧ ∀ k, isMaxAt a k → j ≤ k := by
  classical
  have hne : (Finset.univ.filter (isMaxAt a)).Nonempty := by
    obtain ⟨x, _, hx⟩ := Finset.exists_max_image Finset.univ a
      ⟨⟨0, hn⟩, Finset.mem_univ _⟩
    exact ⟨x, Finset.mem_filter.2
      ⟨Finset.mem_univ _, fun k => hx k (Finset.mem_univ _)⟩⟩
  refine ⟨(Finset.univ.filter (isMaxAt a)).min' hne, ?_, ?_⟩
  · exact (Finset.mem_filter.1 (Finset.min'_mem _ hne)).2
  · intro k hk
    exact Finset.min'_le _ _ (Finset.mem_filter.2 ⟨Finset.mem_univ _, hk⟩)

/-- On a nonempty index set, `one_if_max` is a one-hot vector: 1 at some
index attaining the maximum, 0 everywhere else. -/
lemma one_if_max_one_hot {n : ℕ} (hn : 0 < n) (a : Fin n → ℝ) :
    ∃ j, isMaxAt a j ∧ one_if_max a j = 1 ∧
      ∀ k, k ≠ j → one_if_max a k = 0 := by
  classical
  obtain ⟨j, hj, hleast⟩ := exists_first_max hn a
  refine ⟨j, hj, ?_, ?_⟩
  · unfold one_if_max
    rw [if_pos ⟨hj, hleast⟩]
  · intro k hk
    unfold one_if_max
    rw [if_neg]
    rintro ⟨hk1, hk2⟩
    exact hk (le_antisymm (hk2 j hj) (hleast k hk1))

/-- C3: for a BINARY hidden unit policy with `computeProb = true`, the
hidden activation is the logistic sigmoid of the pre-activation,
`h_a = sigmoid(b + v_a·W)` (first conjunct); and on the concrete
4-visible/3-hidden BINARY/BINARY model with zero biases, fixed weights
(log 3, −log 3 and log 2 placed in rows 0 and 3, zero elsewhere) and the
known visible vector (1,1,0,1), the hidden activation equals the
hand-computed values (3/4, 1/4, 2/3) within 1e-6 (second conjunct). -/
theorem activate_hidden_binary_sigmoid :
    (∀ (nv nh : ℕ) (S : Bool) (r h_a h_s : Fin nh → ℝ) (v_a v_s : Fin nv → ℝ)
       (b : Fin nh → ℝ) (w : Fin nv → Fin nh → ℝ),
       (activate_hidden unit_type.BINARY true S r h_a h_s v_a v_s b w).1 =
         fun j => sigmoid (b j + vmmul_vh v_a w j)) ∧
    (|(@activate_hidden 4 3 unit_type.BINARY true true (fun _ => 0)
          (fun _ => 0) (fun _ => 0) ![1, 1, 0, 1] ![1, 1, 0, 1] (fun _ => 0)
          ![![Real.log 3, -Real.log 3, 0], ![0, 0, 0], ![0, 0, 0],
            ![0, 0, Real.log 2]]).1 0 - 3/4| ≤ 1/1000000 ∧
      |(@activate_hidden 4 3 unit_type.BINARY true true (fun _ => 0)
          (fun _ => 0) (fun _ => 0) ![1, 1, 0, 1] ![1, 1, 0, 1] (fun _ => 0)
          ![![Real.log 3, -Real.log 3, 0], ![0, 0, 0], ![0, 0, 0],
            ![0, 0, Real.log 2]]).1 1 - 1/4| ≤ 1/1000000 ∧
      |(@activate_hidden 4 3 unit_type.BINARY true true (fun _ => 0)
          (fun _ => 0) (fun _ => 0) ![1, 1, 0, 1] ![1, 1, 0, 1] (fun _ => 0)
          ![![Real.log 3, -Real.log 3, 0], ![0, 0, 0], ![0, 0, 0],
            ![0, 0, Real.log 2]]).1 2 - 2/3| ≤ 1/1000000) := by
  refine ⟨fun nv nh S r h_a h_s v_a v_s b w => rfl, ?_, ?_, ?_⟩ <;>
    norm_num [activate_hidden, vmmul_vh, sigmoid, Fin.sum_univ_four,
      Matrix.cons_val_zero, Matrix.cons_val_one, Matrix.cons_val_two,
      Matrix.cons_val_three, Matrix.head_cons, Matrix.vecHead, Matrix.vecTail,
      Function.comp, Real.exp_neg, Real.exp_log, abs_le]

/-- C6: for a SOFTMAX hidden unit policy and any input, the hidden
activation produced by `activate_hidden` sums to 1 across the hidden layer
(within 1e-6 — here exactly), and the hidden sample is a one-hot vector:
one unit at an index attaining the maximum activation equals 1 and all
others equal 0. -/
theorem activate_hidden_softmax_sum_one_and_one_hot :
    ∀ (nv nh : ℕ), 0 < nh →
      ∀ (r h_a h_s : Fin nh → ℝ) (v_a v_s : Fin nv → ℝ)
        (b : Fin nh → ℝ) (w : Fin nv → Fin nh → ℝ),
        |(∑ j, (activate_hidden unit_type.SOFTMAX true true r h_a h_s
            v_a v_s b w).1 j) - 1| ≤ 1/1000000 ∧
          ∃ j, isMaxAt ((activate_hidden unit_type.SOFTMAX true true r h_a h_s
                v_a v_s b w).1) j ∧
            (activate_hidden unit_type.SOFTMAX true true r h_a h_s
                v_a v_s b w).2 j = 1 ∧
            ∀ k, k ≠ j →
              (activate_hidden unit_type.SOFTMAX true true r h_a h_s
                  v_a v_s b w).2 k = 0 := by
  intro nv nh hn r h_a h_s v_a v_s b w
  have h1 : (activate_hidden unit_type.SOFTMAX true true r h_a h_s
      v_a v_s b w).1 = softmax (fun j => b j + vmmul_vh v_a w j) := rfl
  have h2 : (activate_hidden unit_type.SOFTMAX true true r h_a h_s
      v_a v_s b w).2 =
      one_if_max (softmax (fun j => b j + vmmul_vh v_a w j)) := rfl
  constructor
  · rw [h1, softmax_sum_one hn]
    norm_num
  · rw [h1, h2]
    exact one_if_max_one_hot hn _

/-- Witness for C6: the 1-visible/1-hidden SOFTMAX model with all-zero
parameters has a hidden activation summing to 1 and a one-hot hidden
sample. -/
theorem activate_hidden_softmax_sum_one_and_one_hot_witness :
    0 < 1 ∧
      (|(∑ j, (@activate_hidden 1 1 unit_type.SOFTMAX true true (fun _ => 0)
          (fun _ => 0) (fun _ => 0) (fun _ => 0) (fun _ => 0) (fun _ => 0)
          (fun _ _ => 0)).1 j) - 1| ≤ 1/1000000 ∧
        ∃ j, isMaxAt ((@activate_hidden 1 1 unit_type.SOFTMAX true true
              (fun _ => 0) (fun _ => 0) (fun _ => 0) (fun _ => 0) (fun _ => 0)
              (fun _ => 0) (fun _ _ => 0)).1) j ∧
          (@activate_hidden 1 1 unit_type.SOFTMAX true true (fun _ => 0)
              (fun _ => 0) (fun _ => 0) (fun _ => 0) (fun _ => 0) (fun _ => 0)
              (fun _ _ => 0)).2 j = 1 ∧
          ∀ k, k ≠ j →
            (@activate_hidden 1 1 unit_type.SOFTMAX true true (fun _ => 0)
                (fun _ => 0) (fun _ => 0) (fun _ => 0) (fun _ => 0)
                (fun _ => 0) (fun _ _ => 0)).2 k = 0) :=
  ⟨Nat.one_pos,
    activate_hidden_softmax_sum_one_and_one_hot 1 1 Nat.one_pos (fun _ => 0)
      (fun _ => 0) (fun _ => 0) (fun _ => 0) (fun _ => 0) (fun _ => 0)
      (fun _ _ => 0)⟩

end DLL
